import Mathlib

/-
Verification of the prettybench pipeline: line classification, benchmark
record parsing, run-group accumulation, time-unit selection, and table
rendering, shallowly embedded from the Go sources (prettybench.go and the
vendored bench parse package).

Strings are modelled as List Char.  Go float64 quantities are modelled as
rationals (exact arithmetic; the threshold comparisons and unit selection
do not depend on binary rounding).  Go panics (out-of-range slice indexing)
are modelled by Option, with none standing for a panic.
-/

namespace Prettybench

/-! ### Character helpers and splitting (strings.Split / strings.Fields) -/

/-- Whitespace test matching Go's unicode.IsSpace (the rune set used by
strings.Fields and strings.TrimSpace). -/
def goIsSpace (c : Char) : Bool :=
  c = ' ' ∨ c = '\t' ∨ c = '\n' ∨ c = '\r' ∨ c.toNat = 11 ∨ c.toNat = 12 ∨
  c.toNat = 133 ∨ c.toNat = 160 ∨ c.toNat = 5760 ∨
  (8192 ≤ c.toNat ∧ c.toNat ≤ 8202) ∨ c.toNat = 8232 ∨ c.toNat = 8233 ∨
  c.toNat = 8239 ∨ c.toNat = 8287 ∨ c.toNat = 12288

/-- Split a character list at every character satisfying p, keeping empty
pieces; mirrors strings.Split with a one-character separator when p tests
for that separator. -/
def splitOnPred (p : Char → Bool) : List Char → List (List Char)
  | [] => [[]]
  | c :: rest =>
    if p c then [] :: splitOnPred p rest
    else
      match splitOnPred p rest with
      | [] => [[c]]
      | h :: t => (c :: h) :: t

/-- strings.Split(line, "\t"). -/
def splitOnTab (s : List Char) : List (List Char) :=
  splitOnPred (fun c => c == '\t') s

/-- Split a rendered text into its lines (what the line-oriented scanner
would see when the text is fed back as input). -/
def splitLines (s : List Char) : List (List Char) :=
  splitOnPred (fun c => c == '\n') s

/-- strings.Fields: split on runs of whitespace, dropping empty pieces. -/
def goFields (s : List Char) : List (List Char) :=
  (splitOnPred goIsSpace s).filter (fun f => !f.isEmpty)

/-! ### Numeric parsing (strconv) -/

/-- Value of a list of decimal digit characters. -/
def digitsToNat (ds : List Char) : ℕ :=
  ds.foldl (fun a c => 10 * a + (c.toNat - 48)) 0

/-- Largest int64 value, used by strconv.Atoi's range check. -/
def int64Max : ℤ := 9223372036854775807

/-- Smallest int64 value. -/
def int64Min : ℤ := -9223372036854775808

/-- Largest uint64 value, used by strconv.ParseUint's range check. -/
def uint64Max : ℕ := 18446744073709551615

/-- strconv.Atoi: optional sign, then one or more decimal digits, value
within the int64 range; none models a returned error. -/
def goAtoi (s : List Char) : Option ℤ :=
  let sd : Bool × List Char :=
    match s with
    | '+' :: r => (false, r)
    | '-' :: r => (true, r)
    | r => (false, r)
  if sd.2 = [] ∨ ¬ sd.2.all Char.isDigit then none
  else
    let v : ℤ := if sd.1 then -(digitsToNat sd.2 : ℤ) else (digitsToNat sd.2 : ℤ)
    if int64Min ≤ v ∧ v ≤ int64Max then some v else none

/-- strconv.ParseUint(s, 10, 64): decimal digits only, no sign, value
within the uint64 range. -/
def goParseUint (s : List Char) : Option ℕ :=
  if s = [] ∨ ¬ s.all Char.isDigit then none
  else
    let n := digitsToNat s
    if n ≤ uint64Max then some n else none

/-- strconv.ParseFloat(s, 64) on the decimal fragment of its grammar:
optional sign, digits with an optional fractional part, optional decimal
exponent.  The value is kept exact as a rational.  The special forms
(Inf, NaN, hexadecimal floats, underscore separators) and the overflow
error are outside the modelled fragment; no benchmark quantity uses them. -/
def goParseFloat (s : List Char) : Option ℚ :=
  let sd : Bool × List Char :=
    match s with
    | '+' :: r => (false, r)
    | '-' :: r => (true, r)
    | r => (false, r)
  let ip := sd.2.takeWhile Char.isDigit
  let s2 := sd.2.drop ip.length
  let fr : List Char × List Char :=
    match s2 with
    | '.' :: r => (r.takeWhile Char.isDigit, r.drop (r.takeWhile Char.isDigit).length)
    | r => ([], r)
  if ip.length + fr.1.length = 0 then none
  else
    let mant : ℚ := (digitsToNat (ip ++ fr.1) : ℚ) / (10 : ℚ) ^ fr.1.length
    let signed : ℚ := if sd.1 then -mant else mant
    match fr.2 with
    | [] => some signed
    | e :: r =>
      if e = 'e' ∨ e = 'E' then
        let ed : Bool × List Char :=
          match r with
          | '+' :: rr => (false, rr)
          | '-' :: rr => (true, rr)
          | rr => (false, rr)
        let ds := ed.2.takeWhile Char.isDigit
        if ds.length = 0 ∨ ed.2.drop ds.length ≠ [] then none
        else
          some (signed * (if ed.1 then 1 / (10 : ℚ) ^ digitsToNat ds else (10 : ℚ) ^ digitsToNat ds))
      else none

/-! ### Line classification (the two regular expressions) -/

/-- Decides whether some character before the next newline is a decimal
digit; used to evaluate the trailing part of the benchmark regular
expression, whose dot does not cross newlines. -/
def digitBeforeNewline : List Char → Bool
  | [] => false
  | c :: rest => if c = '\n' then false else c.isDigit || digitBeforeNewline rest

/-- Decides whether a tab occurs (before any newline) with a decimal digit
after it on the same line; evaluates the tail of the benchmark regular
expression. -/
def tabThenDigit : List Char → Bool
  | [] => false
  | c :: rest =>
    if c = '\n' then false
    else (c = '\t' && digitBeforeNewline rest) || tabThenDigit rest

/-- benchLineMatcher: the anchored pattern requiring the literal word
Benchmark at the start, then a tab, then later a digit (dots in the
pattern never match a newline). -/
def benchLineMatch (s : List Char) : Bool :=
  "Benchmark".data.isPrefixOf s && tabThenDigit (s.drop 9)

/-- okLineMatcher: the anchored pattern requiring the literal ok followed
by one whitespace-class character (tab, newline, form feed, carriage
return or space). -/
def okLineMatch (s : List Char) : Bool :=
  match s with
  | 'o' :: 'k' :: c :: _ =>
    c = ' ' || c = '\t' || c = '\n' || c = '\r' || c.toNat = 12
  | _ => false

/-! ### The benchmark record (bench package) -/

/-- Measurement flag for the time metric. -/
def flagNsPerOp : ℕ := 1

/-- Measurement flag for the throughput metric. -/
def flagMBPerS : ℕ := 2

/-- Measurement flag for the allocated-bytes metric. -/
def flagAllocedBytesPerOp : ℕ := 4

/-- Measurement flag for the allocation-count metric. -/
def flagAllocsPerOp : ℕ := 8

/-- One parsed benchmark measurement (the bench package's record type;
the vendored historical copy names the fields Name, N, NsOp, MbS, BOp,
AllocsOp, Measured). -/
structure Benchmark where
  name : List Char
  n : ℤ
  nsPerOp : ℚ
  mbPerS : ℚ
  allocedBytesPerOp : ℕ
  allocsPerOp : ℕ
  measured : ℕ
deriving DecidableEq

/-- parseMeasurement: dispatch on the unit label; a recognized unit whose
quantity fails numeric parsing leaves the record unchanged, and an
unrecognized unit label is ignored entirely. -/
def parseMeasurement (b : Benchmark) (quant unit : List Char) : Benchmark :=
  if unit = "ns/op".data then
    match goParseFloat quant with
    | some f => { b with nsPerOp := f, measured := b.measured ||| flagNsPerOp }
    | none => b
  else if unit = "MB/s".data then
    match goParseFloat quant with
    | some f => { b with mbPerS := f, measured := b.measured ||| flagMBPerS }
    | none => b
  else if unit = "B/op".data then
    match goParseUint quant with
    | some i => { b with allocedBytesPerOp := i, measured := b.measured ||| flagAllocedBytesPerOp }
    | none => b
  else if unit = "allocs/op".data then
    match goParseUint quant with
    | some i => { b with allocsPerOp := i, measured := b.measured ||| flagAllocsPerOp }
    | none => b
  else b

/-- The measurement loop of the bench package's ParseLine: pairs of
whitespace-separated fields starting at index 2; with an odd field count
the last field is ignored. -/
def applyMeasurements (b : Benchmark) (fields : List (List Char)) : Benchmark :=
  ((List.range (fields.length / 2)).drop 1).foldl
    (fun b i => parseMeasurement b ((fields[2 * i]?).getD []) ((fields[2 * i + 1]?).getD []))
    b

/-- ParseLine of the bench package: whitespace fields, at least two of
them, the first starting with the word Benchmark, the second a decimal
iteration count; remaining fields are consumed pairwise as measurements. -/
def benchParseLine (line : List Char) : Except (List Char) Benchmark :=
  match goFields line with
  | f0 :: f1 :: _ =>
    if "Benchmark".data.isPrefixOf f0 then
      match goAtoi f1 with
      | some n =>
        Except.ok (applyMeasurements
          { name := f0, n := n, nsPerOp := 0, mbPerS := 0,
            allocedBytesPerOp := 0, allocsPerOp := 0, measured := 0 }
          (goFields line))
      | none => Except.error "bad iteration count".data
    else Except.error "first field does not start with Benchmark".data
  | _ => Except.error "two fields required".data

/-- Outcome of the top-level ParseLine as the main loop distinguishes it:
the not-a-bench-line value, any other error, or a record. -/
inductive LineResult where
  | notBench : LineResult
  | parseErr : LineResult
  | ok : Benchmark → LineResult
deriving DecidableEq

/-- ParseLine of prettybench.go: the regular-expression pre-filter and the
three-tab-field check both yield the not-a-bench-line sentinel; only then
is the bench package's full parse attempted. -/
def parseLine (line : List Char) : LineResult :=
  if ¬ benchLineMatch line then .notBench
  else if (splitOnTab line).length < 3 then .notBench
  else
    match benchParseLine line with
    | .error _ => .parseErr
    | .ok b => .ok b

/-! ### Decimal formatting (fmt verbs used by the renderer) -/

/-- Decimal digit character for a value below ten. -/
def digitChar (n : ℕ) : Char := Char.ofNat (48 + n)

/-- Decimal digit characters of a natural number, most significant first. -/
def natToChars (n : ℕ) : List Char :=
  if n < 10 then [digitChar n]
  else natToChars (n / 10) ++ [digitChar (n % 10)]
termination_by n
decreasing_by
  exact Nat.div_lt_self (by omega) (by omega)

/-- Decimal rendering of an integer with a leading minus sign when
negative (the %d verb and strconv.FormatInt). -/
def intToChars (i : ℤ) : List Char :=
  (if i < 0 then ['-'] else []) ++ natToChars i.natAbs

/-- Floor of a rational as an integer (exact). -/
def ratFloor (q : ℚ) : ℤ := q.num / (q.den : ℤ)

/-- Nearest integer to a rational, ties to the even integer; the rounding
used when a binary float is printed with a fixed number of decimals. -/
def roundHalfEven (q : ℚ) : ℤ :=
  let f := ratFloor q
  let r : ℚ := q - (f : ℚ)
  if r < 1 / 2 then f
  else if 1 / 2 < r then f + 1
  else if f % 2 = 0 then f else f + 1

/-- Exactly two decimal digit characters for a value below one hundred. -/
def twoDigits (n : ℕ) : List Char :=
  [digitChar (n / 10 % 10), digitChar (n % 10)]

/-- The %.2f verb: sign, integer part, a dot and two fractional digits.
On the modelled exact rationals the rounding of the scaled value is ties
to even, matching the printing of the underlying binary float except on
ties introduced by binary representation error. -/
def fmt2 (q : ℚ) : List Char :=
  let m := (roundHalfEven (q * 100)).natAbs
  (if q < 0 then ['-'] else []) ++ natToChars (m / 100) ++ '.' :: twoDigits (m % 100)

/-! ### The run group and the unit normalizer -/

/-- BenchOutputGroup: the ordered records of one run and the union of
their measurement flags. -/
structure BenchOutputGroup where
  lines : List Benchmark
  measured : ℕ
deriving DecidableEq

/-- The fresh empty group created at startup and after each flush. -/
def emptyGroup : BenchOutputGroup := ⟨[], 0⟩

/-- AddLine: append the record and fold its flags into the union. -/
def BenchOutputGroup.addLine (g : BenchOutputGroup) (line : Benchmark) : BenchOutputGroup :=
  ⟨g.lines ++ [line], g.measured ||| line.measured⟩

/-- The smallest nsPerOp of the group, scanned exactly as TimeFormatFunc
does: the first record's value, lowered by every strictly smaller later
value.  The empty case is never reached by the renderer (guarded by the
empty-group check); it is given the value zero here. -/
def smallestNs (g : BenchOutputGroup) : ℚ :=
  match g.lines with
  | [] => 0
  | l :: rest => rest.foldl (fun acc x => if x.nsPerOp < acc then x.nsPerOp else acc) l.nsPerOp

/-- The four display units for the time column, finest first. -/
inductive TimeUnit where
  | ns : TimeUnit
  | us : TimeUnit
  | ms : TimeUnit
  | s : TimeUnit
deriving DecidableEq

/-- Position of a unit in the finest-to-coarsest order. -/
def unitIdx : TimeUnit → ℕ
  | .ns => 0
  | .us => 1
  | .ms => 2
  | .s => 3

/-- The switch of TimeFormatFunc: thresholds on the smallest time, in
nanoseconds (10000 nanoseconds, one millisecond, ten seconds). -/
def timeUnit (smallest : ℚ) : TimeUnit :=
  if smallest < 10000 then .ns
  else if smallest < 1000000 then .us
  else if smallest < 10000000000 then .ms
  else .s

/-- The formatting closure returned by each branch of TimeFormatFunc. -/
def timeFormat (u : TimeUnit) (ns : ℚ) : List Char :=
  match u with
  | .ns => fmt2 ns ++ " ns/op".data
  | .us => fmt2 (ns / 1000) ++ " μs/op".data
  | .ms => fmt2 (ns / 1000000) ++ " ms/op".data
  | .s => fmt2 (ns / 1000000000) ++ " s/op".data

/-- TimeFormatFunc: choose one formatting function for the whole group
from its smallest nsPerOp. -/
def timeFormatFunc (g : BenchOutputGroup) : ℚ → List Char :=
  timeFormat (timeUnit (smallestNs g))

/-! ### Cell formatters -/

/-- FormatIterations. -/
def formatIterations (iter : ℤ) : List Char := intToChars iter

/-- FormatMegaBytesPerSecond: empty cell when the record lacks the flag. -/
def formatMegaBytesPerSecond (l : Benchmark) : List Char :=
  if l.measured &&& flagMBPerS = 0 then []
  else fmt2 l.mbPerS ++ " MB/s".data

/-- FormatBytesAllocPerOp: empty cell when the record lacks the flag. -/
def formatBytesAllocPerOp (l : Benchmark) : List Char :=
  if l.measured &&& flagAllocedBytesPerOp = 0 then []
  else natToChars l.allocedBytesPerOp ++ " B/op".data

/-- FormatAllocsPerOp: empty cell when the record lacks the flag. -/
def formatAllocsPerOp (l : Benchmark) : List Char :=
  if l.measured &&& flagAllocsPerOp = 0 then []
  else natToChars l.allocsPerOp ++ " allocs/op".data

/-! ### Table construction -/

/-- Table: per-column maximum widths and the rectangular cell grid. -/
structure Table where
  maxLengths : List ℕ
  cells : List (List (List Char))
deriving DecidableEq

/-- Column headers of String: the three mandatory columns followed by the
optional ones whose flag is set in the group union. -/
def columnNames (g : BenchOutputGroup) : List (List Char) :=
  let c0 := ["benchmark".data, "iter".data, "time/iter".data]
  let c1 := if 0 < g.measured &&& flagMBPerS then c0 ++ ["throughput".data] else c0
  let c2 := if 0 < g.measured &&& flagAllocedBytesPerOp then c1 ++ ["bytes alloc".data] else c1
  if 0 < g.measured &&& flagAllocsPerOp then c2 ++ ["allocs".data] else c2

/-- The underline row exactly as tabulate builds it: a slice pre-sized to
the column count (so already holding that many empty strings) to which the
dash runs are then appended. -/
def underlinesRow (colNames : List (List Char)) : List (List Char) :=
  List.replicate colNames.length [] ++
    colNames.map (fun name => List.replicate name.length '-')

/-- One data row of tabulate: name, iteration count and the group-wide
time format, then the optional cells for each column the group includes. -/
def rowCells (g : BenchOutputGroup) (line : Benchmark) : List (List Char) :=
  let r0 := [line.name, formatIterations line.n, timeFormatFunc g line.nsPerOp]
  let r1 := if 0 < g.measured &&& flagMBPerS then r0 ++ [formatMegaBytesPerSecond line] else r0
  let r2 := if 0 < g.measured &&& flagAllocedBytesPerOp then r1 ++ [formatBytesAllocPerOp line] else r1
  if 0 < g.measured &&& flagAllocsPerOp then r2 ++ [formatAllocsPerOp line] else r2

/-- tabulate: header row, underline row, then one row per record in
insertion order.  The maximum widths are filled in later by String. -/
def tabulate (g : BenchOutputGroup) (colNames : List (List Char)) : Table :=
  ⟨[], colNames :: underlinesRow colNames :: g.lines.map (rowCells g)⟩

/-- findMaxLengths: for every column index, the largest cell length in
that column over all rows; indexing a row shorter than the header is a
panic, modelled as none. -/
def findMaxLengths (colNames : List (List Char)) (cells : List (List (List Char))) :
    Option (List ℕ) :=
  (List.range colNames.length).mapM (fun i =>
    (cells.mapM (fun row => row[i]?)).map
      (fun col => col.foldl (fun m s => if m < s.length then s.length else m) 0))

/-- Left justification to a width with trailing space padding (never
truncating). -/
def padRight (w : ℕ) (s : List Char) : List Char :=
  s ++ List.replicate (w - s.length) ' '

/-- Right justification to a width with leading space padding (never
truncating). -/
def padLeft (w : ℕ) (s : List Char) : List Char :=
  List.replicate (w - s.length) ' ' ++ s

/-- One formatted cell with its separator, following getFormat: the first
cell of a row is left justified with three trailing spaces, the last is
right justified with nothing after it, interior cells are right justified
with three trailing spaces. -/
def formatCell (i rowLen w : ℕ) (cell : List Char) : List Char :=
  if i = 0 then padRight w cell ++ "   ".data
  else if i = rowLen - 1 then padLeft w cell
  else padLeft w cell ++ "   ".data

/-- The inner loop of formatTableCells over one row, carrying the running
cell index; a width lookup past the end of the width list is the panic of
the original indexing, modelled as none. -/
def formatRowAux (i rowLen : ℕ) (row : List (List Char)) (maxLens : List ℕ) :
    Option (List Char) :=
  match row with
  | [] => some []
  | cell :: rest =>
    match maxLens[i]? with
    | none => none
    | some w =>
      (formatRowAux (i + 1) rowLen rest maxLens).map
        (fun tail => formatCell i rowLen w cell ++ tail)

/-- One rendered row of formatTableCells, with its trailing newline. -/
def formatRow (row : List (List Char)) (maxLens : List ℕ) : Option (List Char) :=
  (formatRowAux 0 row.length row maxLens).map (fun s => s ++ ['\n'])

/-- formatTableCells: every row rendered in order and concatenated. -/
def formatTableCells (cells : List (List (List Char))) (maxLens : List ℕ) :
    Option (List Char) :=
  (cells.mapM (fun row => formatRow row maxLens)).map List.flatten

/-- String of BenchOutputGroup: empty output for an empty group, otherwise
tabulate, the width scan and the final formatting pass. -/
def groupString (g : BenchOutputGroup) : Option (List Char) :=
  if g.lines.isEmpty then some []
  else
    let colNames := columnNames g
    let table := tabulate g colNames
    match findMaxLengths colNames table.cells with
    | none => none
    | some maxLens => formatTableCells table.cells maxLens

/-! ### The main loop -/

/-- The fixed diagnostic notice written to the error stream for a line
that passed the pre-filter but failed the full parse. -/
def diagNotice : List Char := "prettybench unrecognized line:".data ++ ['\n']

/-- Program state while scanning: the accumulating group, the standard
output text and the error-stream text. -/
structure ProcState where
  group : BenchOutputGroup
  stdout : List Char
  stderr : List Char
deriving DecidableEq

/-- The initial state: a fresh group and no output. -/
def initState : ProcState := ⟨emptyGroup, [], []⟩

/-- One iteration of the scanner loop of main: a parsed record is
appended silently; the not-a-bench-line outcome first flushes the group
when the ok pattern matches (a panic inside the render is none) and then
echoes the line unless suppressed; any other parse outcome writes the
diagnostic notice and echoes the line. -/
def processLine (noPassthrough : Bool) (st : ProcState) (text : List Char) :
    Option ProcState :=
  match parseLine text with
  | .ok b => some ⟨st.group.addLine b, st.stdout, st.stderr⟩
  | .notBench =>
    if okLineMatch text then
      match groupString st.group with
      | none => none
      | some tbl =>
        some ⟨emptyGroup,
          st.stdout ++ tbl ++ (if noPassthrough then [] else text ++ ['\n']),
          st.stderr⟩
    else
      some ⟨st.group,
        st.stdout ++ (if noPassthrough then [] else text ++ ['\n']),
        st.stderr⟩
  | .parseErr =>
    some ⟨st.group, st.stdout ++ text ++ ['\n'], st.stderr ++ diagNotice⟩

/-- The whole scanner loop over a list of input lines; at end of input the
state is returned as is, with no final flush. -/
def processLines (noPassthrough : Bool) : List (List Char) → ProcState → Option ProcState
  | [], st => some st
  | l :: ls, st =>
    match processLine noPassthrough st l with
    | none => none
    | some st' => processLines noPassthrough ls st'

/-- The observable output of a (possibly panicking) run. -/
def outputOf (r : Option ProcState) : Option (List Char × List Char) :=
  r.map (fun st => (st.stdout, st.stderr))

/-- Whether the classifier produced a record. -/
def LineResult.isOk : LineResult → Bool
  | .ok _ => true
  | _ => false

/-- Time formatting function exactly as the specification words it, for
comparison with the code's timeFormatFunc: thresholds on the group's
smallest per-op time select nanoseconds, microseconds (divide by one
thousand), milliseconds (divide by one million) or seconds (divide by one
billion), always with two decimals and the unit suffix. -/
def specTimeFormatFunc (smallest : ℚ) : ℚ → List Char :=
  if smallest < 10000 then fun ns => fmt2 ns ++ " ns/op".data
  else if smallest < 1000000 then fun ns => fmt2 (ns / 1000) ++ " μs/op".data
  else if smallest < 10000000000 then fun ns => fmt2 (ns / 1000000) ++ " ms/op".data
  else fun ns => fmt2 (ns / 1000000000) ++ " s/op".data

/-! ### Concrete inputs used by witnesses and counterexamples -/

/-- A structurally valid benchmark line whose only metric field carries an
unrecognized unit label. -/
def unknownUnitLine : List Char := "BenchmarkFoo\t10\t5 widgets/op".data

/-- The record the parser yields for unknownUnitLine: the unknown metric
is skipped, so no flag is set and every metric value is zero. -/
def unknownUnitBench : Benchmark := ⟨"BenchmarkFoo".data, 10, 0, 0, 0, 0, 0⟩

/-- A line passing the structural pre-filter with only two tab fields. -/
def twoFieldLine : List Char := "BenchmarkFoo\t10".data

/-- A benchmark line whose time quantity is not numeric. -/
def badQuantLine : List Char := "BenchmarkBad\t100\tabc ns/op".data

/-- A benchmark line whose metric pair has an unknown unit, so parsing it
touches no rational arithmetic. -/
def plainBenchLine : List Char := "BenchmarkA\t2\tx y".data

/-- A one-record group measuring only time (120 ns per op). -/
def oneRecGroup : BenchOutputGroup :=
  ⟨[⟨"BenchmarkFoo".data, 100, 120, 0, 0, 0, flagNsPerOp⟩], flagNsPerOp⟩

/-- Another one-record group measuring only time (200 ns per op). -/
def oneRecGroupB : BenchOutputGroup :=
  ⟨[⟨"BenchmarkBar".data, 50, 200, 0, 0, 0, flagNsPerOp⟩], flagNsPerOp⟩

/-! ### Helper lemmas -/

theorem processLines_append (np : Bool) (ls ms : List (List Char)) (st : ProcState) :
    processLines np (ls ++ ms) st =
      match processLines np ls st with
      | none => none
      | some st' => processLines np ms st' := by
  induction ls generalizing st with
  | nil => simp [processLines]
  | cons l ls ih =>
    simp only [List.cons_append, processLines]
    cases processLine np st l with
    | none => rfl
    | some st' => exact ih st'

theorem processLines_okLines (np : Bool) (ms : List (List Char)) (st : ProcState)
    (h : ms.all (fun m => (parseLine m).isOk) = true) :
    ∃ g, processLines np ms st = some ⟨g, st.stdout, st.stderr⟩ := by
  induction ms generalizing st with
  | nil => exact ⟨st.group, by cases st; simp [processLines]⟩
  | cons m ms ih =>
    rw [List.all_cons, Bool.and_eq_true] at h
    obtain ⟨h1, h2⟩ := h
    cases hp : parseLine m with
    | ok b =>
      have := ih ⟨st.group.addLine b, st.stdout, st.stderr⟩ h2
      simpa [processLines, processLine, hp] using this
    | notBench => rw [hp] at h1; exact absurd h1 (by simp [LineResult.isOk])
    | parseErr => rw [hp] at h1; exact absurd h1 (by simp [LineResult.isOk])

theorem parseLine_fourFields (line name iters quant unit : List Char) (n : ℤ)
    (hf : goFields line = [name, iters, quant, unit])
    (hpre : benchLineMatch line = true)
    (htab : ¬ (splitOnTab line).length < 3)
    (hname : "Benchmark".data.isPrefixOf name = true)
    (hn : goAtoi iters = some n) :
    parseLine line = LineResult.ok
      (parseMeasurement ⟨name, n, 0, 0, 0, 0, 0⟩ quant unit) := by
  unfold parseLine
  rw [hpre]
  simp only [not_true_eq_false, if_false, if_neg htab]
  unfold benchParseLine
  rw [hf]
  simp only [hname, if_true, hn]
  unfold applyMeasurements
  simp [List.range_succ]

/-! ### Claim C9: a trailing group with no terminator line is never rendered -/

/-- C9: appending any suffix of successfully parsed measurement lines to
an input (so the run ends with accumulated records and no terminator)
leaves both output streams exactly as they were without the suffix: the
trailing accumulated group is never rendered at end of input. -/
theorem trailing_group_never_rendered (np : Bool) (ls ms : List (List Char))
    (st : ProcState) (h : ms.all (fun m => (parseLine m).isOk) = true) :
    outputOf (processLines np (ls ++ ms) st) = outputOf (processLines np ls st) := by
  rw [processLines_append]
  cases hls : processLines np ls st with
  | none => rfl
  | some st' =>
    obtain ⟨g, hg⟩ := processLines_okLines np ms st' h
    show outputOf (processLines np ms st') = outputOf (some st')
    rw [hg]
    cases st'
    rfl

/-- Witness for C9 at a concrete input: one pass-through line followed by
one measurement line and no terminator. -/
theorem trailing_group_never_rendered_witness :
    [plainBenchLine].all (fun m => (parseLine m).isOk) = true ∧
      outputOf (processLines false (["hello".data] ++ [plainBenchLine]) initState) =
        outputOf (processLines false ["hello".data] initState) :=
  ⟨by decide,
   trailing_group_never_rendered false ["hello".data] [plainBenchLine] initState (by decide)⟩

/-! ### Claim C10: a recognized unit with a non-numeric quantity does not fail the parse -/

/-- C10: a line passing the pre-filter whose whitespace fields are a
Benchmark-prefixed name, a valid iteration count, and one metric pair with
the time unit but a quantity that fails numeric parsing still parses into
a record; the time flag is left unset and the time value left at zero. -/
theorem bad_quantity_keeps_record (line name iters quant : List Char) (n : ℤ)
    (hf : goFields line = [name, iters, quant, "ns/op".data])
    (hpre : benchLineMatch line = true)
    (htab : ¬ (splitOnTab line).length < 3)
    (hname : "Benchmark".data.isPrefixOf name = true)
    (hn : goAtoi iters = some n)
    (hq : goParseFloat quant = none) :
    parseLine line = LineResult.ok ⟨name, n, 0, 0, 0, 0, 0⟩ := by
  rw [parseLine_fourFields line name iters quant "ns/op".data n hf hpre htab hname hn]
  simp [parseMeasurement, hq]

/-- Witness for C10 at a concrete line with a non-numeric time quantity. -/
theorem bad_quantity_keeps_record_witness :
    goFields badQuantLine = ["BenchmarkBad".data, "100".data, "abc".data, "ns/op".data] ∧
      goParseFloat "abc".data = none ∧
      parseLine badQuantLine = LineResult.ok ⟨"BenchmarkBad".data, 100, 0, 0, 0, 0, 0⟩ :=
  ⟨by decide, by decide,
   bad_quantity_keeps_record badQuantLine "BenchmarkBad".data "100".data "abc".data 100
     (by decide) (by decide) (by decide) (by decide) (by decide) (by decide)⟩

/-! ### Claim C3: unknown unit labels (corrected: they are silently skipped) -/

/-- C3 as stated is false: this concrete line passes the structural
pre-filter and carries the unknown unit label widgets/op, yet its parse
succeeds (no ParseError), the record is appended to the current group, no
diagnostic notice is produced and nothing is echoed. -/
theorem unknown_unit_counterexample :
    parseLine unknownUnitLine = LineResult.ok unknownUnitBench ∧
      unknownUnitBench.measured = 0 ∧
      processLine false initState unknownUnitLine =
        some ⟨⟨[unknownUnitBench], 0⟩, [], []⟩ := by
  refine ⟨by decide, by decide, by decide⟩

/-- C3 amended: a line passing the pre-filter whose whitespace fields are
a Benchmark-prefixed name, a valid iteration count and one metric pair
with an unrecognized unit label parses successfully into a record with no
measurement flags; the record is appended to the current group and neither
output stream changes (no diagnostic, no echo). -/
theorem unknown_unit_skipped (line name iters quant unit : List Char) (n : ℤ)
    (np : Bool) (g : BenchOutputGroup) (out err : List Char)
    (hf : goFields line = [name, iters, quant, unit])
    (hpre : benchLineMatch line = true)
    (htab : ¬ (splitOnTab line).length < 3)
    (hname : "Benchmark".data.isPrefixOf name = true)
    (hn : goAtoi iters = some n)
    (hu1 : unit ≠ "ns/op".data) (hu2 : unit ≠ "MB/s".data)
    (hu3 : unit ≠ "B/op".data) (hu4 : unit ≠ "allocs/op".data) :
    parseLine line = LineResult.ok ⟨name, n, 0, 0, 0, 0, 0⟩ ∧
      processLine np ⟨g, out, err⟩ line =
        some ⟨g.addLine ⟨name, n, 0, 0, 0, 0, 0⟩, out, err⟩ := by
  have hp : parseLine line = LineResult.ok ⟨name, n, 0, 0, 0, 0, 0⟩ := by
    rw [parseLine_fourFields line name iters quant unit n hf hpre htab hname hn]
    simp [parseMeasurement, hu1, hu2, hu3, hu4]
  exact ⟨hp, by simp [processLine, hp]⟩

/-- Witness for the amended C3 at a concrete unknown-unit line. -/
theorem unknown_unit_skipped_witness :
    parseLine unknownUnitLine = LineResult.ok ⟨"BenchmarkFoo".data, 10, 0, 0, 0, 0, 0⟩ ∧
      processLine true ⟨emptyGroup, [], []⟩ unknownUnitLine =
        some ⟨emptyGroup.addLine ⟨"BenchmarkFoo".data, 10, 0, 0, 0, 0, 0⟩, [], []⟩ :=
  unknown_unit_skipped unknownUnitLine "BenchmarkFoo".data "10".data "5".data
    "widgets/op".data 10 true emptyGroup [] []
    (by decide) (by decide) (by decide) (by decide) (by decide)
    (by decide) (by decide) (by decide) (by decide)

/-! ### Claim C4: fewer than three tab fields (corrected: it is a pass-through) -/

/-- C4 as stated is false: this line passes the structural pre-filter but
splits into only two tab fields, and the code classifies it with the
not-a-bench-line sentinel: it is echoed as an ordinary pass-through line
and the diagnostic stream stays empty (no ParseError is raised). -/
theorem too_few_fields_counterexample :
    parseLine twoFieldLine = LineResult.notBench ∧
      processLine false initState twoFieldLine =
        some ⟨emptyGroup, twoFieldLine ++ ['\n'], []⟩ := by
  refine ⟨by decide, by decide⟩

/-- C4 amended: a line that passes the pre-filter but has fewer than three
tab fields yields the not-a-bench-line outcome, so it is handled as an
ordinary pass-through line: never a terminator (its first character is B,
not o), echoed unless suppressed, no diagnostic, no record. -/
theorem too_few_fields_passthrough (line : List Char) (np : Bool)
    (g : BenchOutputGroup) (out err : List Char)
    (h1 : benchLineMatch line = true) (h2 : (splitOnTab line).length < 3) :
    parseLine line = LineResult.notBench ∧ okLineMatch line = false ∧
      processLine np ⟨g, out, err⟩ line =
        some ⟨g, out ++ (if np then [] else line ++ ['\n']), err⟩ := by
  have hp : parseLine line = LineResult.notBench := by
    unfold parseLine
    rw [h1]
    simp [h2]
  have hok : okLineMatch line = false := by
    have hpre : "Benchmark".data.isPrefixOf line = true := by
      unfold benchLineMatch at h1
      exact (Bool.and_eq_true _ _).mp h1 |>.1
    obtain ⟨t, ht⟩ := List.isPrefixOf_iff_prefix.mp hpre
    rw [← ht]
    rfl
  refine ⟨hp, hok, ?_⟩
  simp [processLine, hp, hok]

/-- Witness for the amended C4 at a concrete two-field line. -/
theorem too_few_fields_passthrough_witness :
    parseLine twoFieldLine = LineResult.notBench ∧ okLineMatch twoFieldLine = false ∧
      processLine true ⟨emptyGroup, [], []⟩ twoFieldLine =
        some ⟨emptyGroup, [] ++ (if true then [] else twoFieldLine ++ ['\n']), []⟩ :=
  too_few_fields_passthrough twoFieldLine true emptyGroup [] [] (by decide) (by decide)

theorem foldlMin_mem (rest : List Benchmark) (acc : ℚ) :
    rest.foldl (fun a x => if x.nsPerOp < a then x.nsPerOp else a) acc = acc ∨
      ∃ l ∈ rest,
        rest.foldl (fun a x => if x.nsPerOp < a then x.nsPerOp else a) acc = l.nsPerOp := by
  induction rest generalizing acc with
  | nil => exact Or.inl rfl
  | cons x rest ih =>
    rw [List.foldl_cons]
    rcases ih (if x.nsPerOp < acc then x.nsPerOp else acc) with hm | ⟨l, hl, hml⟩
    · rw [hm]
      split_ifs with h
      · exact Or.inr ⟨x, List.mem_cons_self x rest, rfl⟩
      · exact Or.inl rfl
    · exact Or.inr ⟨l, List.mem_cons_of_mem x hl, hml⟩

theorem foldlMin_le (rest : List Benchmark) (acc : ℚ) :
    rest.foldl (fun a x => if x.nsPerOp < a then x.nsPerOp else a) acc ≤ acc ∧
      ∀ l ∈ rest,
        rest.foldl (fun a x => if x.nsPerOp < a then x.nsPerOp else a) acc ≤ l.nsPerOp := by
  induction rest generalizing acc with
  | nil => simp
  | cons x rest ih =>
    rw [List.foldl_cons]
    obtain ⟨h1, h2⟩ := ih (if x.nsPerOp < acc then x.nsPerOp else acc)
    have hacc : (if x.nsPerOp < acc then x.nsPerOp else acc) ≤ acc := by
      split_ifs with h
      · exact le_of_lt h
      · exact le_rfl
    have hx : (if x.nsPerOp < acc then x.nsPerOp else acc) ≤ x.nsPerOp := by
      split_ifs with h
      · exact le_rfl
      · exact le_of_not_lt h
    refine ⟨le_trans h1 hacc, ?_⟩
    intro l hl
    rcases List.mem_cons.mp hl with rfl | hl
    · exact le_trans h1 hx
    · exact h2 l hl

theorem smallestNs_mem (l₀ : Benchmark) (rest : List Benchmark) (m : ℕ) :
    smallestNs ⟨l₀ :: rest, m⟩ ∈ (l₀ :: rest).map Benchmark.nsPerOp := by
  show rest.foldl (fun a x => if x.nsPerOp < a then x.nsPerOp else a) l₀.nsPerOp ∈ _
  rcases foldlMin_mem rest l₀.nsPerOp with hm | ⟨l, hl, hml⟩
  · rw [hm]
    exact List.mem_map_of_mem Benchmark.nsPerOp (List.mem_cons_self l₀ rest)
  · rw [hml]
    exact List.mem_map_of_mem Benchmark.nsPerOp (List.mem_cons_of_mem l₀ hl)

theorem smallestNs_le (l₀ : Benchmark) (rest : List Benchmark) (m : ℕ) :
    ∀ l ∈ l₀ :: rest, smallestNs ⟨l₀ :: rest, m⟩ ≤ l.nsPerOp := by
  intro l hl
  show rest.foldl (fun a x => if x.nsPerOp < a then x.nsPerOp else a) l₀.nsPerOp ≤ _
  obtain ⟨h1, h2⟩ := foldlMin_le rest l₀.nsPerOp
  rcases List.mem_cons.mp hl with rfl | hl
  · exact h1
  · exact h2 l hl

theorem timeFormatFunc_eq_spec (g : BenchOutputGroup) :
    timeFormatFunc g = specTimeFormatFunc (smallestNs g) := by
  unfold timeFormatFunc specTimeFormatFunc timeUnit
  split_ifs <;> rfl

theorem rowCells_getElem2 (g : BenchOutputGroup) (l : Benchmark) :
    (rowCells g l)[2]? = some (timeFormatFunc g l.nsPerOp) := by
  unfold rowCells
  split_ifs <;> rfl

/-! ### Claim C1: group-wide time unit selection from the smallest nsPerOp -/

/-- C1: for a non-empty group the scanned smallest time is the minimum of
the records' nsPerOp values; the group's formatting function is exactly
the specification's threshold table over that smallest value (nanoseconds
below ten thousand, then microseconds, milliseconds below ten seconds,
else seconds, each with two decimals and its suffix); and the time cell of
every data row, in order, is that one function applied to the record's own
nsPerOp. -/
theorem group_time_unit_selection (l₀ : Benchmark) (rest : List Benchmark) (m : ℕ) :
    smallestNs ⟨l₀ :: rest, m⟩ ∈ (l₀ :: rest).map Benchmark.nsPerOp ∧
      ((l₀ :: rest).map Benchmark.nsPerOp).all
        (fun x => decide (smallestNs ⟨l₀ :: rest, m⟩ ≤ x)) = true ∧
      timeFormatFunc ⟨l₀ :: rest, m⟩ = specTimeFormatFunc (smallestNs ⟨l₀ :: rest, m⟩) ∧
      ((tabulate ⟨l₀ :: rest, m⟩ (columnNames ⟨l₀ :: rest, m⟩)).cells.drop 2).map
          (fun r => r[2]?) =
        (l₀ :: rest).map
          (fun l => some (specTimeFormatFunc (smallestNs ⟨l₀ :: rest, m⟩) l.nsPerOp)) := by
  refine ⟨smallestNs_mem l₀ rest m, ?_, timeFormatFunc_eq_spec _, ?_⟩
  · rw [List.all_eq_true]
    intro x hx
    rw [decide_eq_true_eq]
    obtain ⟨l, hl, rfl⟩ := List.mem_map.mp hx
    exact smallestNs_le l₀ rest m l hl
  · show ((l₀ :: rest).map (rowCells ⟨l₀ :: rest, m⟩)).map (fun r => r[2]?) = _
    rw [List.map_map]
    refine List.map_congr_left ?_
    intro l _
    show (rowCells ⟨l₀ :: rest, m⟩ l)[2]? = _
    rw [rowCells_getElem2, timeFormatFunc_eq_spec]

/-! ### Claim C6: unit selection is monotone in the smallest time -/

theorem timeUnit_mono (s' s : ℚ) (h : s' ≤ s) :
    unitIdx (timeUnit s') ≤ unitIdx (timeUnit s) := by
  unfold timeUnit
  split_ifs <;> simp_all [unitIdx, not_lt] <;> linarith

/-- C6: lowering the smallest nsPerOp of a non-empty group to a strictly
smaller non-negative value never moves the chosen display unit to a
coarser one in the finest-to-coarsest order ns, us, ms, s. -/
theorem unit_selection_monotone (l₀ : Benchmark) (rest : List Benchmark) (m : ℕ)
    (l₀' : Benchmark) (rest' : List Benchmark) (m' : ℕ)
    (h0 : 0 ≤ smallestNs ⟨l₀' :: rest', m'⟩)
    (hlt : smallestNs ⟨l₀' :: rest', m'⟩ < smallestNs ⟨l₀ :: rest, m⟩) :
    unitIdx (timeUnit (smallestNs ⟨l₀' :: rest', m'⟩)) ≤
      unitIdx (timeUnit (smallestNs ⟨l₀ :: rest, m⟩)) :=
  timeUnit_mono _ _ (le_of_lt hlt)

/-- Witness for C6: replacing a 20 microsecond smallest time with a
5 nanosecond one keeps the unit at least as fine. -/
theorem unit_selection_monotone_witness :
    (0 : ℚ) ≤ smallestNs ⟨[⟨"BenchmarkW".data, 1, 5, 0, 0, 0, 1⟩], 1⟩ ∧
      smallestNs ⟨[⟨"BenchmarkW".data, 1, 5, 0, 0, 0, 1⟩], 1⟩ <
        smallestNs ⟨[⟨"BenchmarkW".data, 1, 20000, 0, 0, 0, 1⟩], 1⟩ ∧
      unitIdx (timeUnit (smallestNs ⟨[⟨"BenchmarkW".data, 1, 5, 0, 0, 0, 1⟩], 1⟩)) ≤
        unitIdx (timeUnit (smallestNs ⟨[⟨"BenchmarkW".data, 1, 20000, 0, 0, 0, 1⟩], 1⟩)) :=
  ⟨by decide, by decide,
   unit_selection_monotone ⟨"BenchmarkW".data, 1, 20000, 0, 0, 0, 1⟩ [] 1
     ⟨"BenchmarkW".data, 1, 5, 0, 0, 0, 1⟩ [] 1 (by decide) (by decide)⟩

theorem measured_of_foldl (rs : List Benchmark) (g0 : BenchOutputGroup) :
    (rs.foldl BenchOutputGroup.addLine g0).measured =
      rs.foldl (fun a b => a ||| b.measured) g0.measured := by
  induction rs generalizing g0 with
  | nil => rfl
  | cons r rs ih => simpa [BenchOutputGroup.addLine] using ih (g0.addLine r)

theorem mem_columnNames_throughput (g : BenchOutputGroup) :
    "throughput".data ∈ columnNames g ↔ 0 < g.measured &&& flagMBPerS := by
  unfold columnNames
  by_cases h1 : 0 < g.measured &&& flagMBPerS <;>
    by_cases h2 : 0 < g.measured &&& flagAllocedBytesPerOp <;>
      by_cases h3 : 0 < g.measured &&& flagAllocsPerOp <;>
        simp [h1, h2, h3]

theorem mem_columnNames_bytesAlloc (g : BenchOutputGroup) :
    "bytes alloc".data ∈ columnNames g ↔ 0 < g.measured &&& flagAllocedBytesPerOp := by
  unfold columnNames
  by_cases h1 : 0 < g.measured &&& flagMBPerS <;>
    by_cases h2 : 0 < g.measured &&& flagAllocedBytesPerOp <;>
      by_cases h3 : 0 < g.measured &&& flagAllocsPerOp <;>
        simp [h1, h2, h3]

theorem mem_columnNames_allocs (g : BenchOutputGroup) :
    "allocs".data ∈ columnNames g ↔ 0 < g.measured &&& flagAllocsPerOp := by
  unfold columnNames
  by_cases h1 : 0 < g.measured &&& flagMBPerS <;>
    by_cases h2 : 0 < g.measured &&& flagAllocedBytesPerOp <;>
      by_cases h3 : 0 < g.measured &&& flagAllocsPerOp <;>
        simp [h1, h2, h3]

/-! ### Claim C5: the group union of measurement flags and column inclusion -/

/-- C5: in every group reachable by appending records to a fresh group,
the stored union equals the fold of bitwise or over the appended records'
flags; appending one more record ors its flags in and never drops a bit
already present; and each optional column name is part of the rendered
header exactly when its bit is set in the union. -/
theorem union_flags_drive_columns (rs : List Benchmark) (l : Benchmark) :
    (rs.foldl BenchOutputGroup.addLine emptyGroup).measured =
        rs.foldl (fun a b => a ||| b.measured) 0 ∧
      ((rs.foldl BenchOutputGroup.addLine emptyGroup).addLine l).measured =
        (rs.foldl BenchOutputGroup.addLine emptyGroup).measured ||| l.measured ∧
      (rs.foldl BenchOutputGroup.addLine emptyGroup).measured |||
          ((rs.foldl BenchOutputGroup.addLine emptyGroup).addLine l).measured =
        ((rs.foldl BenchOutputGroup.addLine emptyGroup).addLine l).measured ∧
      ("throughput".data ∈ columnNames (rs.foldl BenchOutputGroup.addLine emptyGroup) ↔
        0 < (rs.foldl BenchOutputGroup.addLine emptyGroup).measured &&& flagMBPerS) ∧
      ("bytes alloc".data ∈ columnNames (rs.foldl BenchOutputGroup.addLine emptyGroup) ↔
        0 < (rs.foldl BenchOutputGroup.addLine emptyGroup).measured &&&
          flagAllocedBytesPerOp) ∧
      ("allocs".data ∈ columnNames (rs.foldl BenchOutputGroup.addLine emptyGroup) ↔
        0 < (rs.foldl BenchOutputGroup.addLine emptyGroup).measured &&& flagAllocsPerOp) := by
  refine ⟨measured_of_foldl rs emptyGroup, rfl, ?_,
    mem_columnNames_throughput _, mem_columnNames_bytesAlloc _, mem_columnNames_allocs _⟩
  show _ ||| (_ ||| l.measured) = _ ||| l.measured
  apply Nat.eq_of_testBit_eq
  intro i
  simp [Nat.testBit_or, Bool.or_assoc]

theorem optionMapM_length {α β : Type} (f : α → Option β) :
    ∀ (l : List α) (r : List β), l.mapM f = some r → r.length = l.length := by
  intro l
  induction l with
  | nil =>
    intro r h
    simp only [List.mapM_nil, pure, Option.some_inj] at h
    simp [← h]
  | cons a l ih =>
    intro r h
    rw [List.mapM_cons] at h
    cases hf : f a with
    | none => rw [hf] at h; simp at h
    | some b =>
      rw [hf] at h
      cases hl : l.mapM f with
      | none => rw [hl] at h; simp at h
      | some bs =>
        rw [hl] at h
        simp only [Option.bind_eq_bind, Option.some_bind, pure, Option.some_inj] at h
        rw [← h]
        simp [ih bs hl]

theorem formatRowAux_none (lens : List ℕ) :
    ∀ (rest : List (List Char)) (cell : List Char) (i rl : ℕ),
      lens.length ≤ i + rest.length →
      formatRowAux i rl (cell :: rest) lens = none := by
  intro rest
  induction rest with
  | nil =>
    intro cell i rl h
    unfold formatRowAux
    have hnone : lens[i]? = none := by
      rw [List.getElem?_eq_none_iff]
      simpa using h
    rw [hnone]
  | cons c rest ih =>
    intro cell i rl h
    unfold formatRowAux
    cases hl : lens[i]? with
    | none => rfl
    | some w =>
      rw [ih c (i + 1) rl (by simp at h ⊢; omega)]
      rfl

theorem rowCells_length (g : BenchOutputGroup) (l : Benchmark) :
    (rowCells g l).length = (columnNames g).length := by
  unfold rowCells columnNames
  split_ifs <;> simp

theorem three_le_columnNames (g : BenchOutputGroup) : 3 ≤ (columnNames g).length := by
  unfold columnNames
  split_ifs <;> simp

theorem underlinesRow_length (cn : List (List Char)) :
    (underlinesRow cn).length = cn.length + cn.length := by
  simp [underlinesRow]

theorem findMaxLengths_length (cn : List (List Char)) (cells : List (List (List Char)))
    (lens : List ℕ) (h : findMaxLengths cn cells = some lens) :
    lens.length = cn.length := by
  unfold findMaxLengths at h
  have := optionMapM_length _ _ _ h
  simpa using this

theorem groupString_none_of_ne_nil (g : BenchOutputGroup) (h : g.lines ≠ []) :
    groupString g = none := by
  unfold groupString
  rw [if_neg (by simpa using h)]
  show (match findMaxLengths (columnNames g) (tabulate g (columnNames g)).cells with
    | none => none
    | some maxLens => formatTableCells (tabulate g (columnNames g)).cells maxLens) =
      (none : Option (List Char))
  cases hf : findMaxLengths (columnNames g) (tabulate g (columnNames g)).cells with
  | none => rfl
  | some lens =>
    have hlen : lens.length = (columnNames g).length := findMaxLengths_length _ _ _ hf
    have h3 : 3 ≤ (columnNames g).length := three_le_columnNames g
    have hur : formatRow (underlinesRow (columnNames g)) lens = none := by
      obtain ⟨u0, urest, hu⟩ : ∃ u0 urest, underlinesRow (columnNames g) = u0 :: urest := by
        have hne : underlinesRow (columnNames g) ≠ [] := by
          intro hnil
          have := underlinesRow_length (columnNames g)
          rw [hnil] at this
          simp at this
          omega
        obtain ⟨u0, urest, hu⟩ := List.exists_cons_of_ne_nil hne
        exact ⟨u0, urest, hu⟩
      have hul : urest.length + 1 = (columnNames g).length + (columnNames g).length := by
        have := underlinesRow_length (columnNames g)
        rw [hu] at this
        simpa using this
      unfold formatRow
      rw [hu, formatRowAux_none lens urest u0 0 _ (by omega)]
      rfl
    show formatTableCells (columnNames g :: underlinesRow (columnNames g) ::
      g.lines.map (rowCells g)) lens = none
    unfold formatTableCells
    rw [List.mapM_cons]
    cases hr0 : formatRow (columnNames g) lens with
    | none => rfl
    | some s0 =>
      rw [List.mapM_cons, hur]
      rfl

/-! ### Claim C2: the underline row (code bug: the slice is pre-sized and appended) -/

/-- C2 fails on the code: for a concrete one-record group with the three
mandatory columns, tabulate builds an underline row of six cells (the
three empty strings of the pre-sized slice, then the three dash runs)
instead of one dash run per column; data rows do follow one per record,
but rendering then reads a width index past the end of the width list (a
panic, so no table is ever printed for a non-empty group). -/
theorem underline_row_doubled :
    columnNames oneRecGroup = ["benchmark".data, "iter".data, "time/iter".data] ∧
      underlinesRow (columnNames oneRecGroup) =
        [[], [], [],
         "---------".data, "----".data, "---------".data] ∧
      (tabulate oneRecGroup (columnNames oneRecGroup)).cells.drop 2 =
        oneRecGroup.lines.map (rowCells oneRecGroup) ∧
      groupString oneRecGroup = none :=
  ⟨by decide, by decide, rfl, groupString_none_of_ne_nil oneRecGroup (by decide)⟩

/-! ### Claim C8: empty group renders nothing; non-empty rendering panics (code bug) -/

/-- C8 half-holds: rendering the empty group is the empty string, but for
a concrete non-empty group the rendering is a panic (none), not a table
ending in a newline, because of the doubled underline row. -/
theorem empty_group_empty_output :
    groupString emptyGroup = some [] ∧ groupString oneRecGroupB = none :=
  ⟨rfl, groupString_none_of_ne_nil oneRecGroupB (by decide)⟩

theorem splitOnPred_sub (p : Char → Bool) :
    ∀ (s piece : List Char), piece ∈ splitOnPred p s → ∀ c ∈ piece, c ∈ s := by
  intro s
  induction s with
  | nil =>
    intro piece hp c hc
    simp [splitOnPred] at hp
    subst hp
    simp at hc
  | cons a s ih =>
    intro piece hp c hc
    unfold splitOnPred at hp
    by_cases hpa : p a = true
    · rw [if_pos hpa] at hp
      rcases List.mem_cons.mp hp with rfl | hp
      · simp at hc
      · exact List.mem_cons_of_mem a (ih piece hp c hc)
    · rw [if_neg hpa] at hp
      cases hsp : splitOnPred p s with
      | nil =>
        rw [hsp] at hp
        simp at hp
        subst hp
        rw [List.mem_singleton.mp hc]
        exact List.mem_cons_self a s
      | cons h t =>
        rw [hsp] at hp
        rcases List.mem_cons.mp hp with rfl | hp
        · rcases List.mem_cons.mp hc with rfl | hc
          · exact List.mem_cons_self c s
          · exact List.mem_cons_of_mem a (ih h (hsp ▸ List.mem_cons_self h t) c hc)
        · exact List.mem_cons_of_mem a (ih piece (hsp ▸ List.mem_cons_of_mem h hp) c hc)

theorem splitOnPred_no_sep (p : Char → Bool) :
    ∀ (s piece : List Char), piece ∈ splitOnPred p s → ∀ c ∈ piece, p c = false := by
  intro s
  induction s with
  | nil =>
    intro piece hp c hc
    simp [splitOnPred] at hp
    subst hp
    simp at hc
  | cons a s ih =>
    intro piece hp c hc
    unfold splitOnPred at hp
    by_cases hpa : p a = true
    · rw [if_pos hpa] at hp
      rcases List.mem_cons.mp hp with rfl | hp
      · simp at hc
      · exact ih piece hp c hc
    · rw [if_neg hpa] at hp
      cases hsp : splitOnPred p s with
      | nil =>
        rw [hsp] at hp
        simp at hp
        subst hp
        rw [List.mem_singleton.mp hc]
        exact Bool.eq_false_iff.mpr hpa
      | cons h t =>
        rw [hsp] at hp
        rcases List.mem_cons.mp hp with rfl | hp
        · rcases List.mem_cons.mp hc with rfl | hc
          · exact Bool.eq_false_iff.mpr hpa
          · exact ih h (hsp ▸ List.mem_cons_self h t) c hc
        · exact ih piece (hsp ▸ List.mem_cons_of_mem h hp) c hc

theorem parseMeasurement_name (b : Benchmark) (q u : List Char) :
    (parseMeasurement b q u).name = b.name := by
  unfold parseMeasurement
  split_ifs <;>
    first
    | rfl
    | (cases goParseFloat q <;> rfl)
    | (cases goParseUint q <;> rfl)

theorem applyMeasurements_name (fields : List (List Char)) (b : Benchmark) :
    (applyMeasurements b fields).name = b.name := by
  unfold applyMeasurements
  generalize (List.range (fields.length / 2)).drop 1 = is
  induction is generalizing b with
  | nil => rfl
  | cons i is ih =>
    rw [List.foldl_cons, ih _]
    exact parseMeasurement_name _ _ _

/-- Record names come from whitespace splitting, so a record the
classifier produces never has a tab in its name; this grounds the
tab-free-name hypothesis of the reclassification theorem for every group
the program can actually build. -/
theorem parseLine_ok_name_no_tab (line : List Char) (b : Benchmark)
    (h : parseLine line = LineResult.ok b) : '\t' ∉ b.name := by
  unfold parseLine at h
  split_ifs at h
  · revert h
    cases hb : benchParseLine line with
    | error e => intro h; simp at h
    | ok b' =>
      intro h
      simp only [LineResult.ok.injEq] at h
      subst h
      unfold benchParseLine at hb
      revert hb
      cases hfl : goFields line with
      | nil => intro hb; simp at hb
      | cons f0 tl =>
        cases tl with
        | nil => intro hb; simp at hb
        | cons f1 rest =>
          intro hb
          have hb' : (if "Benchmark".data.isPrefixOf f0 = true then
              (match goAtoi f1 with
               | some n =>
                 Except.ok (applyMeasurements
                   { name := f0, n := n, nsPerOp := 0, mbPerS := 0,
                     allocedBytesPerOp := 0, allocsPerOp := 0, measured := 0 }
                   (f0 :: f1 :: rest))
               | none => Except.error "bad iteration count".data)
            else Except.error "first field does not start with Benchmark".data) =
              Except.ok b' := hb
          split_ifs at hb' with hpre
          · revert hb'
            cases goAtoi f1 with
            | none => intro hb'; simp at hb'
            | some n =>
              intro hb'
              simp only [Except.ok.injEq] at hb'
              have hname : b'.name = f0 := by
                rw [← hb', applyMeasurements_name]
              rw [hname]
              intro htab
              have hmem : f0 ∈ goFields line := by
                rw [hfl]; exact List.mem_cons_self _ _
              have hsp : goIsSpace '\t' = false := by
                have hfm := List.mem_filter.mp (by unfold goFields at hmem; exact hmem)
                exact splitOnPred_no_sep goIsSpace line f0 hfm.1 '\t' htab
              exact absurd hsp (by decide)

theorem tabThenDigit_mem (l : List Char) (h : tabThenDigit l = true) : '\t' ∈ l := by
  induction l with
  | nil => simp [tabThenDigit] at h
  | cons c rest ih =>
    unfold tabThenDigit at h
    by_cases hc : c = '\n'
    · rw [if_pos hc] at h; simp at h
    · rw [if_neg hc] at h
      rcases Bool.or_eq_true _ _ |>.mp h with h1 | h2
      · have : c = '\t' := by
          have := (Bool.and_eq_true _ _).mp h1 |>.1
          exact of_decide_eq_true this
        rw [this]
        exact List.mem_cons_self _ _
      · exact List.mem_cons_of_mem c (ih h2)

theorem benchLineMatch_has_tab (s : List Char) (h : benchLineMatch s = true) : '\t' ∈ s := by
  unfold benchLineMatch at h
  have h2 := (Bool.and_eq_true _ _).mp h |>.2
  exact List.drop_subset 9 s (tabThenDigit_mem _ h2)

theorem digitChar_ne_tab (k : ℕ) (hk : k < 10) : digitChar k ≠ '\t' := by
  interval_cases k <;> decide

theorem natToChars_ne_tab (n : ℕ) : ∀ c ∈ natToChars n, c ≠ '\t' := by
  induction n using Nat.strong_induction_on with
  | _ n ih =>
    intro c hc
    unfold natToChars at hc
    by_cases h : n < 10
    · rw [if_pos h] at hc
      rw [List.mem_singleton.mp hc]
      exact digitChar_ne_tab n h
    · rw [if_neg h] at hc
      rcases List.mem_append.mp hc with hc | hc
      · exact ih (n / 10) (Nat.div_lt_self (by omega) (by omega)) c hc
      · rw [List.mem_singleton.mp hc]
        exact digitChar_ne_tab _ (Nat.mod_lt n (by omega))

theorem intToChars_ne_tab (i : ℤ) : ∀ c ∈ intToChars i, c ≠ '\t' := by
  intro c hc
  unfold intToChars at hc
  rcases List.mem_append.mp hc with hc | hc
  · have : c = '-' := by
      by_cases h : i < 0
      · rw [if_pos h] at hc; exact List.mem_singleton.mp hc
      · rw [if_neg h] at hc; simp at hc
    rw [this]; decide
  · exact natToChars_ne_tab _ c hc

theorem twoDigits_ne_tab (k : ℕ) : ∀ c ∈ twoDigits k, c ≠ '\t' := by
  intro c hc
  unfold twoDigits at hc
  rcases List.mem_cons.mp hc with rfl | hc
  · exact digitChar_ne_tab _ (Nat.mod_lt _ (by omega))
  · rw [List.mem_singleton.mp hc]
    exact digitChar_ne_tab _ (Nat.mod_lt _ (by omega))

theorem fmt2_ne_tab (q : ℚ) : ∀ c ∈ fmt2 q, c ≠ '\t' := by
  intro c hc
  unfold fmt2 at hc
  rcases List.mem_append.mp hc with hc | hc
  · rcases List.mem_append.mp hc with hc | hc
    · have : c = '-' := by
        by_cases h : q < 0
        · rw [if_pos h] at hc; exact List.mem_singleton.mp hc
        · rw [if_neg h] at hc; simp at hc
      rw [this]; decide
    · exact natToChars_ne_tab _ c hc
  · rcases List.mem_cons.mp hc with rfl | hc
    · decide
    · exact twoDigits_ne_tab _ c hc

theorem timeFormat_ne_tab (u : TimeUnit) (q : ℚ) : ∀ c ∈ timeFormat u q, c ≠ '\t' := by
  intro c hc
  cases u with
  | ns =>
    rcases List.mem_append.mp hc with hc | hc
    · exact fmt2_ne_tab _ c hc
    · exact (by decide : ∀ x ∈ " ns/op".data, x ≠ '\t') c hc
  | us =>
    rcases List.mem_append.mp hc with hc | hc
    · exact fmt2_ne_tab _ c hc
    · exact (by decide : ∀ x ∈ " μs/op".data, x ≠ '\t') c hc
  | ms =>
    rcases List.mem_append.mp hc with hc | hc
    · exact fmt2_ne_tab _ c hc
    · exact (by decide : ∀ x ∈ " ms/op".data, x ≠ '\t') c hc
  | s =>
    rcases List.mem_append.mp hc with hc | hc
    · exact fmt2_ne_tab _ c hc
    · exact (by decide : ∀ x ∈ " s/op".data, x ≠ '\t') c hc

theorem formatMegaBytesPerSecond_ne_tab (l : Benchmark) :
    ∀ c ∈ formatMegaBytesPerSecond l, c ≠ '\t' := by
  intro c hc
  unfold formatMegaBytesPerSecond at hc
  by_cases h : l.measured &&& flagMBPerS = 0
  · rw [if_pos h] at hc; simp at hc
  · rw [if_neg h] at hc
    rcases List.mem_append.mp hc with hc | hc
    · exact fmt2_ne_tab _ c hc
    · exact (by decide : ∀ x ∈ " MB/s".data, x ≠ '\t') c hc

theorem formatBytesAllocPerOp_ne_tab (l : Benchmark) :
    ∀ c ∈ formatBytesAllocPerOp l, c ≠ '\t' := by
  intro c hc
  unfold formatBytesAllocPerOp at hc
  by_cases h : l.measured &&& flagAllocedBytesPerOp = 0
  · rw [if_pos h] at hc; simp at hc
  · rw [if_neg h] at hc
    rcases List.mem_append.mp hc with hc | hc
    · exact natToChars_ne_tab _ c hc
    · exact (by decide : ∀ x ∈ " B/op".data, x ≠ '\t') c hc

theorem formatAllocsPerOp_ne_tab (l : Benchmark) :
    ∀ c ∈ formatAllocsPerOp l, c ≠ '\t' := by
  intro c hc
  unfold formatAllocsPerOp at hc
  by_cases h : l.measured &&& flagAllocsPerOp = 0
  · rw [if_pos h] at hc; simp at hc
  · rw [if_neg h] at hc
    rcases List.mem_append.mp hc with hc | hc
    · exact natToChars_ne_tab _ c hc
    · exact (by decide : ∀ x ∈ " allocs/op".data, x ≠ '\t') c hc

theorem rowCells_ne_tab (g : BenchOutputGroup) (l : Benchmark) (hname : '\t' ∉ l.name) :
    ∀ cell ∈ rowCells g l, ∀ c ∈ cell, c ≠ '\t' := by
  intro cell hcell c hc
  have hsub : cell = l.name ∨ cell = formatIterations l.n ∨
      cell = timeFormatFunc g l.nsPerOp ∨ cell = formatMegaBytesPerSecond l ∨
      cell = formatBytesAllocPerOp l ∨ cell = formatAllocsPerOp l := by
    unfold rowCells at hcell
    split_ifs at hcell <;> simp at hcell <;> tauto
  rcases hsub with rfl | rfl | rfl | rfl | rfl | rfl
  · intro he; exact hname (he ▸ hc)
  · exact intToChars_ne_tab _ c hc
  · exact timeFormat_ne_tab _ _ c hc
  · exact formatMegaBytesPerSecond_ne_tab _ c hc
  · exact formatBytesAllocPerOp_ne_tab _ c hc
  · exact formatAllocsPerOp_ne_tab _ c hc

theorem columnNames_ne_tab (g : BenchOutputGroup) :
    ∀ cell ∈ columnNames g, ∀ c ∈ cell, c ≠ '\t' := by
  intro cell hcell c hc
  have hsub : cell = "benchmark".data ∨ cell = "iter".data ∨ cell = "time/iter".data ∨
      cell = "throughput".data ∨ cell = "bytes alloc".data ∨ cell = "allocs".data := by
    unfold columnNames at hcell
    split_ifs at hcell <;> simp at hcell <;> tauto
  have hall : ∀ x ∈ "benchmark".data, x ≠ '\t' := by decide
  have hall2 : ∀ x ∈ "iter".data, x ≠ '\t' := by decide
  have hall3 : ∀ x ∈ "time/iter".data, x ≠ '\t' := by decide
  have hall4 : ∀ x ∈ "throughput".data, x ≠ '\t' := by decide
  have hall5 : ∀ x ∈ "bytes alloc".data, x ≠ '\t' := by decide
  have hall6 : ∀ x ∈ "allocs".data, x ≠ '\t' := by decide
  rcases hsub with rfl | rfl | rfl | rfl | rfl | rfl
  · exact hall c hc
  · exact hall2 c hc
  · exact hall3 c hc
  · exact hall4 c hc
  · exact hall5 c hc
  · exact hall6 c hc

theorem underlinesRow_ne_tab (cn : List (List Char)) :
    ∀ cell ∈ underlinesRow cn, ∀ c ∈ cell, c ≠ '\t' := by
  intro cell hcell c hc
  unfold underlinesRow at hcell
  rcases List.mem_append.mp hcell with hcell | hcell
  · rw [List.eq_of_mem_replicate hcell] at hc
    simp at hc
  · obtain ⟨nm, _, rfl⟩ := List.mem_map.mp hcell
    rw [List.eq_of_mem_replicate hc]
    decide

theorem tabulate_cells_ne_tab (g : BenchOutputGroup)
    (hname : ∀ l ∈ g.lines, '\t' ∉ l.name) :
    ∀ row ∈ (tabulate g (columnNames g)).cells, ∀ cell ∈ row, ∀ c ∈ cell, c ≠ '\t' := by
  intro row hrow
  rcases List.mem_cons.mp hrow with rfl | hrow
  · exact columnNames_ne_tab g
  rcases List.mem_cons.mp hrow with rfl | hrow
  · exact underlinesRow_ne_tab (columnNames g)
  · obtain ⟨l, hl, rfl⟩ := List.mem_map.mp hrow
    exact rowCells_ne_tab g l (hname l hl)

theorem formatCell_chars (i rl w : ℕ) (cell : List Char) :
    ∀ c ∈ formatCell i rl w cell, c = ' ' ∨ c ∈ cell := by
  intro c hc
  have hsp : "   ".data = [' ', ' ', ' '] := rfl
  unfold formatCell padLeft padRight at hc
  split_ifs at hc <;>
    (first
     | (rcases List.mem_append.mp hc with hc | hc
        · rcases List.mem_append.mp hc with hc | hc
          · first
            | exact Or.inr hc
            | exact Or.inl (List.eq_of_mem_replicate hc)
          · first
            | exact Or.inr hc
            | exact Or.inl (List.eq_of_mem_replicate hc)
        · rw [hsp] at hc
          rcases List.mem_cons.mp hc with rfl | hc
          · exact Or.inl rfl
          rcases List.mem_cons.mp hc with rfl | hc
          · exact Or.inl rfl
          · rw [List.mem_singleton.mp hc]; exact Or.inl rfl)
     | (rcases List.mem_append.mp hc with hc | hc
        · exact Or.inl (List.eq_of_mem_replicate hc)
        · exact Or.inr hc))

theorem formatRowAux_chars (lens : List ℕ) :
    ∀ (row : List (List Char)) (i rl : ℕ) (out : List Char),
      formatRowAux i rl row lens = some out →
      ∀ c ∈ out, c = ' ' ∨ ∃ cell ∈ row, c ∈ cell := by
  intro row
  induction row with
  | nil =>
    intro i rl out h c hc
    unfold formatRowAux at h
    rw [← Option.some_inj.mp h] at hc
    simp at hc
  | cons cell rest ih =>
    intro i rl out h c hc
    unfold formatRowAux at h
    cases hl : lens[i]? with
    | none => rw [hl] at h; simp at h
    | some w =>
      rw [hl] at h
      cases ha : formatRowAux (i + 1) rl rest lens with
      | none => rw [ha] at h; simp at h
      | some tail =>
        rw [ha] at h
        simp at h
        rw [← h] at hc
        rcases List.mem_append.mp hc with hc | hc
        · rcases formatCell_chars i rl w cell c hc with hc | hc
          · exact Or.inl hc
          · exact Or.inr ⟨cell, List.mem_cons_self _ _, hc⟩
        · rcases ih (i + 1) rl tail ha c hc with hc | ⟨cl, hcl, hc⟩
          · exact Or.inl hc
          · exact Or.inr ⟨cl, List.mem_cons_of_mem _ hcl, hc⟩

theorem formatTableCells_chars (lens : List ℕ) :
    ∀ (cells : List (List (List Char))) (out : List Char),
      formatTableCells cells lens = some out →
      ∀ c ∈ out, c = '\n' ∨ c = ' ' ∨ ∃ row ∈ cells, ∃ cell ∈ row, c ∈ cell := by
  intro cells
  induction cells with
  | nil =>
    intro out h c hc
    have hnil : formatTableCells ([] : List (List (List Char))) lens = some [] := rfl
    rw [hnil] at h
    rw [← Option.some_inj.mp h] at hc
    simp at hc
  | cons row rows ih =>
    intro out h c hc
    unfold formatTableCells at h
    rw [List.mapM_cons] at h
    cases hr : formatRow row lens with
    | none => rw [hr] at h; simp at h
    | some s0 =>
      rw [hr] at h
      cases hrs : rows.mapM (fun row => formatRow row lens) with
      | none => rw [hrs] at h; simp at h
      | some ss =>
        rw [hrs] at h
        simp at h
        rw [← h] at hc
        rcases List.mem_append.mp hc with hc | hc
        · unfold formatRow at hr
          cases ha : formatRowAux 0 row.length row lens with
          | none => rw [ha] at hr; simp at hr
          | some s1 =>
            rw [ha] at hr
            simp at hr
            rw [← hr] at hc
            rcases List.mem_append.mp hc with hc | hc
            · rcases formatRowAux_chars lens row 0 row.length s1 ha c hc with hc | ⟨cl, hcl, hc⟩
              · exact Or.inr (Or.inl hc)
              · exact Or.inr (Or.inr ⟨row, List.mem_cons_self _ _, cl, hcl, hc⟩)
            · rw [List.mem_singleton.mp hc]
              exact Or.inl rfl
        · have hx : formatTableCells rows lens = some ss.flatten := by
            unfold formatTableCells
            rw [hrs]
            rfl
          rcases ih ss.flatten hx c hc with hc | hc | ⟨r, hr2, cl, hcl, hc⟩
          · exact Or.inl hc
          · exact Or.inr (Or.inl hc)
          · exact Or.inr (Or.inr ⟨r, List.mem_cons_of_mem _ hr2, cl, hcl, hc⟩)

theorem groupString_ne_tab (g : BenchOutputGroup) (s : List Char)
    (hname : ∀ l ∈ g.lines, '\t' ∉ l.name) (hs : groupString g = some s) :
    ∀ c ∈ s, c ≠ '\t' := by
  intro c hc
  unfold groupString at hs
  by_cases he : g.lines.isEmpty
  · rw [if_pos he] at hs
    rw [← Option.some_inj.mp hs] at hc
    simp at hc
  · rw [if_neg he] at hs
    revert hs
    show (match findMaxLengths (columnNames g) (tabulate g (columnNames g)).cells with
      | none => none
      | some maxLens => formatTableCells (tabulate g (columnNames g)).cells maxLens) =
        some s → c ≠ '\t'
    cases hf : findMaxLengths (columnNames g) (tabulate g (columnNames g)).cells with
    | none => intro hs; simp at hs
    | some lens =>
      intro hs
      rcases formatTableCells_chars lens _ s hs c hc with rfl | rfl | ⟨row, hrow, cell, hcell, hcc⟩
      · decide
      · decide
      · exact tabulate_cells_ne_tab g hname row hrow cell hcell c hcc

/-! ### Claim C7: rendered table lines are never reclassified as benchmark lines -/

/-- C7: every line of a rendered table (whose record names are tab-free,
as the whitespace-splitting parser guarantees) fails the benchmark
pattern, because the pattern demands a tab and the renderer only ever
emits cells, spaces and newlines; so the classifier treats each such line
as a plain non-benchmark line and no double-table effect can occur. -/
theorem rendered_lines_not_reclassified (g : BenchOutputGroup) (s row : List Char)
    (hname : ∀ l ∈ g.lines, '\t' ∉ l.name)
    (hs : groupString g = some s) (hrow : row ∈ splitLines s) :
    benchLineMatch row = false ∧ parseLine row = LineResult.notBench := by
  have hts : ∀ c ∈ s, c ≠ '\t' := groupString_ne_tab g s hname hs
  have htr : '\t' ∉ row := by
    intro hc
    exact hts '\t' (splitOnPred_sub _ s row hrow '\t' hc) rfl
  have hbm : benchLineMatch row = false := by
    cases hb : benchLineMatch row
    · rfl
    · exact absurd (benchLineMatch_has_tab row hb) htr
  refine ⟨hbm, ?_⟩
  unfold parseLine
  rw [hbm]
  simp

/-- Witness for C7 at the empty group, whose rendering is the empty
string with the single empty scanner line. -/
theorem rendered_lines_not_reclassified_witness :
    benchLineMatch [] = false ∧ parseLine [] = LineResult.notBench :=
  rendered_lines_not_reclassified emptyGroup [] [] (by decide) (by decide) (by decide)

end Prettybench
